import Mathlib

/-!
Shallow embedding of the punctuation-aware tokenizer of this repository.

The embedded draft is the coherent one, `src/unnamed/part_001` (the
"kparser" single-file header): `punc_t` / `punc_list_t` / `token_t` /
`parser_t`, the matcher `parser_is_punctuation`, the constructor
`parser_init` with its scan loop, and the cursor operations
`parser_get_token`, `parser_unget_token`, `parser_peek_token`,
`parser_get_line`.  `src/parser.h` holds an older, mutually inconsistent
draft of the same component; where a claim cites it the relevant logic
(the matcher, the quote loops, `UngetToken`, the `current_token + 1` peek
offset) is identical in the draft embedded here.

Modelling conventions:
* The C buffer is a NUL-terminated byte string; it is modelled as a
  `List Char` of the bytes before the terminator.  Reading `buffer[i]`
  for `0 ≤ i ≤ strlen(buffer)` is defined in C, and reading the index
  `strlen(buffer)` yields the NUL terminator; `charAt` therefore returns
  `Char.ofNat 0` out of range.  The single place where the C code reads
  `buffer[-1]` (the escape test of a quote loop when the quote sits at
  offset 0, an out-of-bounds read) is modelled as the NUL byte as well and
  is flagged at that spot.
* `intmax_t` / `int` values are modelled as `Int` where they can go
  negative (token ids, cursor, line) and as `Nat` where the code only
  ever produces non-negative values (scan indices, lengths from
  `strlen`).  No value in any trace approaches 2^63, so wrap-around is
  not modelled.
* Reads of `tokens.items[k]` outside `[0, count)` are undefined behaviour
  in C; the cursor operations return `Option` results and such a read
  yields `none`.  Likewise the scan loop yields `none` where the C code
  reads `punctuation->items[-1]` or where a C `while` loop provably never
  terminates (the quote loop when its escape flag sticks).
* `parser_init` never assigns `parser->current_token`; the malloc'd field
  is indeterminate in C.  It is modelled as 0, the value the header's own
  test drivers rely on.
-/

/-- NUL byte used for out-of-range buffer reads (the C buffer's terminator). -/
def NUL : Char := Char.ofNat 0

/-- Reading `buffer[i]`: in range it is the stored byte, at `i = length`
it is the NUL terminator. -/
def charAt (buf : List Char) (i : Nat) : Char := buf.getD i NUL

/-- C struct `punc_t` of part_001 (`Punctuation` in parser.h): literal
bytes `p`, caller id `id`, and the stored length `len` (`strlen(p)`,
assigned by `punc_add`). -/
structure punc_t where
  p : List Char
  id : Int
  len : Nat
deriving Repr, DecidableEq

/-- C struct `token_t` of part_001 (`Token` in parser.h). -/
structure token_t where
  id : Int
  token : List Char
  len : Int
  line : Int
  offset : Int
deriving Repr, DecidableEq

/-- C struct `parser_t` of part_001.  `buffer_size` is `strlen(buffer)`,
i.e. `buffer.length`; the token list models `tokens.items[0..count)`. -/
structure parser_t where
  options : Nat
  buffer : List Char
  punctuation : List punc_t
  tokens : List token_t
  current_token : Int
deriving Repr, DecidableEq

/-- Option bit `P_ACCEPT_SINGLEQUOTES` (0x01). -/
def P_ACCEPT_SINGLEQUOTES : Nat := 1

/-- Option bit `P_ACCEPT_DOUBLEQUOTES` (0x02). -/
def P_ACCEPT_DOUBLEQUOTES : Nat := 2

/-- `punc_init()`: fresh empty list (capacity bookkeeping is not modelled). -/
def punc_init : List punc_t := []

/-- `punc_add(list, token, id)`: appends an entry whose `len` is
`strlen(token)`. -/
def punc_add (list : List punc_t) (token : List Char) (id : Int) : List punc_t :=
  list ++ [⟨token, id, token.length⟩]

/-- Inner `while` of `parser_is_punctuation`:
`while (++offset < buffer_size && ++p_index < len) if (buffer[offset] != p[p_index]) fail`.
Called with `j = 1` after the first byte matched; returns `true` when the
loop leaves `found_punc` at 1 — note that running off the end of the
buffer (`++offset < buffer_size` failing) counts as found. -/
def punc_match_go (buf lit : List Char) (start : Nat) : Nat → Nat → Bool
  | _, 0 => true
  | j, r + 1 =>
    if start + j < buf.length then
      if charAt buf (start + j) = charAt lit j then punc_match_go buf lit start (j + 1) r
      else false
    else true

/-- Entry point of the inner `while`: the remaining-iteration counter
`len - j` makes the recursion structural; it is exactly the `p_index < len`
bound, so no behaviour is cut off. -/
def punc_match_from (buf : List Char) (lit : List Char) (len start j : Nat) : Bool :=
  punc_match_go buf lit start j (len - j)

/-- `parser_is_punctuation` body: scan the entries in registration order
`k = 0, 1, ...` and return the index of the FIRST entry whose first byte
matches `buffer[start_offset]` and whose remaining bytes match via
`punc_match_from`; `-1` when none does.  Identical logic in
`Parser_IsPunctuation` of src/parser.h.  The function only reads
`parser->buffer`, `parser->buffer_size` and `parser->punctuation`, so it
is modelled on those components directly. -/
def is_punc_from (buf : List Char) (items : List punc_t) (start k : Nat) : Int :=
  match items with
  | [] => -1
  | e :: rest =>
    if charAt buf start = charAt e.p 0 ∧ punc_match_from buf e.p e.len start 1 = true then (k : Int)
    else is_punc_from buf rest start (k + 1)

/-- `parser_is_punctuation(parser, start_offset)` of part_001 lines
148-177 (= `Parser_IsPunctuation` of src/parser.h lines 122-151). -/
def parser_is_punctuation (punctuation : List punc_t) (buf : List Char) (start_offset : Nat) : Int :=
  is_punc_from buf punctuation start_offset 0

/-- `while (p->buffer[i] == ' ' && i < p->buffer_size) i++;` as structural
recursion on a step counter. -/
def skipSpacesGo (buf : List Char) : Nat → Nat → Nat
  | i, 0 => i
  | i, f + 1 => if charAt buf i = ' ' ∧ i < buf.length then skipSpacesGo buf (i + 1) f else i

/-- `while (p->buffer[i] == ' ' && i < p->buffer_size) i++;` — the counter
`buf.length + 1 - i` can never run out because the loop requires
`i < buf.length` to continue and advances `i` each pass. -/
def skipSpaces (buf : List Char) (i : Nat) : Nat :=
  skipSpacesGo buf i (buf.length + 1 - i)

/-- `if (p->buffer[i] == '\r' && i < p->buffer_size) i++;` -/
def crSkip (buf : List Char) (i : Nat) : Nat :=
  if charAt buf i = '\r' ∧ i < buf.length then i + 1 else i

/-- `if (p->buffer[i] == '\n') current_line++;` -/
def nlBump (buf : List Char) (i : Nat) (line : Int) : Int :=
  if charAt buf i = '\n' then line + 1 else line

/-- The separator test of the word loop:
`p->buffer[i] == '\n' || p->buffer[i] == '\t' || p->buffer[i] == ' '`. -/
def isSep (c : Char) : Bool := c = '\n' || c = '\t' || c = ' '

/-- Quoted-span `while` loop of `parser_init` (both quote flavours have the
same body).  Entered with `i` at the opening quote and
`e = start_offset + 1`:

```
while (i < p->buffer_size) {
    int is_escaped = 0;
    if (i < p->buffer_size-1 && p->buffer[i-1] == '\\') is_escaped = 1;
    if (is_escaped == 0 && p->buffer[++i] == q) break;
    end_offset++;
}
```

When `is_escaped` is set the body neither advances `i` nor breaks, and
`is_escaped` depends only on `i`, so the C loop never terminates: that
state is modelled as `none`.  When `i = 0` the escape test reads
`buffer[-1]`, an out-of-bounds read one byte before the buffer (undefined
in C); it is modelled as the NUL byte. -/
def quoteLoopGo (buf : List Char) (q : Char) : Nat → Nat → Nat → Option (Nat × Nat)
  | _, _, 0 => none
  | i, e, f + 1 =>
    if i < buf.length then
      if i < buf.length - 1 ∧ (if i = 0 then NUL else charAt buf (i - 1)) = '\\' then none
      else if charAt buf (i + 1) = q then some (i + 1, e)
      else quoteLoopGo buf q (i + 1) (e + 1) f
    else some (i, e)

/-- Entry point of the quote loop; the step counter `buf.length + 1 - i`
can never run out because the loop requires `i < buf.length` to continue
and advances `i` each non-aborting pass. -/
def quoteLoop (buf : List Char) (q : Char) (i e : Nat) : Option (Nat × Nat) :=
  quoteLoopGo buf q i e (buf.length + 1 - i)

/-- Plain-word `while` loop of `parser_init`:

```
while (i < p->buffer_size) {
    if (p->buffer[i] == '\r' && i < p->buffer_size) i++;
    if (p->buffer[i] == '\n') current_line++;
    is_punc = parser_is_punctuation(p, i);
    if (is_punc > -1) { is_punc = -1; i -= p->punctuation->items[is_punc].len + 1; break; }
    if (p->buffer[i] == '\n' || p->buffer[i] == '\t' || p->buffer[i] == ' ') break;
    end_offset++;
    i++;
}
```

The punctuation branch first sets `is_punc = -1` and then reads
`p->punctuation->items[is_punc].len`, i.e. `items[-1]` — an out-of-bounds
read (undefined in C), modelled as `none`.  Returns the final
`(i, end_offset, current_line)` otherwise. -/
def wordLoopGo (plist : List punc_t) (buf : List Char) :
    Nat → Nat → Int → Nat → Option (Nat × Nat × Int)
  | _, _, _, 0 => none
  | i, e, line, f + 1 =>
    if i < buf.length then
      if parser_is_punctuation plist buf (crSkip buf i) > -1 then none
      else if isSep (charAt buf (crSkip buf i)) then
        some (crSkip buf i, e, nlBump buf (crSkip buf i) line)
      else wordLoopGo plist buf (crSkip buf i + 1) (e + 1) (nlBump buf (crSkip buf i) line) f
    else some (i, e, line)

/-- Entry point of the word loop; the step counter `buf.length + 1 - i`
can never run out because the loop requires `i < buf.length` to continue
and advances `i` each non-breaking pass. -/
def wordLoop (plist : List punc_t) (buf : List Char) (i e : Nat) (line : Int) :
    Option (Nat × Nat × Int) :=
  wordLoopGo plist buf i e line (buf.length + 1 - i)

/-- `token.token = strncpy(.., buffer + start_offset, token.len)`: the
copied bytes (the buffer is NUL-free, so `strncpy` copies `len` raw
bytes). -/
def strncpySlice (buf : List Char) (start len : Nat) : List Char := (buf.drop start).take len

/-- `if (token.len == 0) continue; else` append the token — the push step
at the bottom of the scan loop for the `is_punc < 0` branches. -/
def pushTok (tok : token_t) (len : Nat) (rest : Option (List token_t)) :
    Option (List token_t) :=
  if len = 0 then rest else rest.map (tok :: ·)

/-- The `for (i = 0; i < p->buffer_size; i++)` scan loop of `parser_init`
(part_001 lines 237-338), with the produced tokens returned in push
order.  `fuel` only bounds the recursion: every iteration advances `i`
by at least one, so `buf.length + 1` units never run out (exhaustion
would yield `none`).  Per iteration, in source order: skip spaces, skip
one `'\r'`, count a `'\n'`, try `parser_is_punctuation`; on `-1` run the
double-quote / single-quote / word sub-loop and build the word token
(`id = -1`, `len = end_offset - start_offset - 1`, `line = start_line`,
`offset = start_offset`), skipping it when `len == 0`; otherwise build
the punctuation token from the matched entry and, when its `len > 1`,
advance `i` by the full literal length before the `i++` of the `for`. -/
def scanLoop (options : Nat) (buf : List Char) (plist : List punc_t) :
    Nat → Nat → Int → Option (List token_t)
  | 0, _, _ => none
  | fuel + 1, i, line =>
    if i < buf.length then
      let i2 := crSkip buf (skipSpaces buf i)
      let line1 := nlBump buf i2 line
      let ip := parser_is_punctuation plist buf i2
      if ip = -1 then
        if options &&& P_ACCEPT_DOUBLEQUOTES ≠ 0 ∧ charAt buf i2 = '"' then
          match quoteLoop buf '"' i2 (i2 + 1) with
          | none => none
          | some (i3, e3) =>
            pushTok ⟨-1, strncpySlice buf i2 (e3 - i2 - 1), ((e3 - i2 - 1 : Nat) : Int), line1, (i2 : Int)⟩
              (e3 - i2 - 1) (scanLoop options buf plist fuel (i3 + 1) line1)
        else if options &&& P_ACCEPT_SINGLEQUOTES ≠ 0 ∧ charAt buf i2 = '\'' then
          match quoteLoop buf '\'' i2 (i2 + 1) with
          | none => none
          | some (i3, e3) =>
            pushTok ⟨-1, strncpySlice buf i2 (e3 - i2 - 1), ((e3 - i2 - 1 : Nat) : Int), line1, (i2 : Int)⟩
              (e3 - i2 - 1) (scanLoop options buf plist fuel (i3 + 1) line1)
        else
          match wordLoop plist buf i2 (i2 + 1) line1 with
          | none => none
          | some (i3, e3, line3) =>
            pushTok ⟨-1, strncpySlice buf i2 (e3 - i2 - 1), ((e3 - i2 - 1 : Nat) : Int), line1, (i2 : Int)⟩
              (e3 - i2 - 1) (scanLoop options buf plist fuel (i3 + 1) line3)
      else
        match plist.get? ip.toNat with
        | none => none
        | some e =>
          (scanLoop options buf plist fuel ((if 1 < e.len then i2 + e.len else i2) + 1) line1).map
            (fun ts => ⟨e.id, e.p, (e.len : Int), line1, (i2 : Int)⟩ :: ts)
    else some []

/-- `parser_init(buffer, punctuation, options)` of part_001 lines 219-344:
runs the scan loop over the whole buffer and returns the constructed
parser.  `current_token` is modelled as 0 (the C code never initialises
it; see the header comment). -/
def parser_init (buffer : List Char) (punctuation : List punc_t) (options : Nat) :
    Option parser_t :=
  (scanLoop options buffer punctuation (buffer.length + 1) 0 0).map
    (fun toks =>
      { options := options, buffer := buffer, punctuation := punctuation,
        tokens := toks, current_token := 0 })

/-- Reading `parser->tokens.items[k]`: `none` models an out-of-bounds
read (undefined behaviour in C). -/
def tokenAt (ts : List token_t) (k : Int) : Option token_t :=
  if 0 ≤ k then ts.get? k.toNat else none

/-- `parser_get_token` of part_001 lines 362-379: below the count, return
the token at the cursor and advance the cursor; otherwise build the
EndOfStream token `id = -2`, `len = 3`, `line`/`offset` from
`tokens.items[current_token - 1]`, and do not move the cursor. -/
def parser_get_token (p : parser_t) : Option (token_t × parser_t) :=
  if p.current_token < (p.tokens.length : Int) then
    match tokenAt p.tokens p.current_token with
    | some t => some (t, { p with current_token := p.current_token + 1 })
    | none => none
  else
    match tokenAt p.tokens (p.current_token - 1) with
    | some prev =>
      some (⟨-2, [], 3, prev.line + 1, prev.offset + prev.len⟩, p)
    | none => none

/-- `parser_unget_token` of part_001 lines 381-387 (= `Parser_UngetToken`
of src/parser.h): `if (parser->current_token > 0) --parser->current_token;`. -/
def parser_unget_token (p : parser_t) : parser_t :=
  if 0 < p.current_token then { p with current_token := p.current_token - 1 } else p

/-- `parser_peek_token` of part_001 lines 389-406: below the count it
returns `tokens.items[current_token + 1]` — one position AHEAD of the
cursor (same `current_token + 1` offset as `Parser_PeekToken` of
src/parser.h) — without writing any parser field; otherwise the same
EndOfStream construction as `parser_get_token`. -/
def parser_peek_token (p : parser_t) : Option (token_t × parser_t) :=
  if p.current_token < (p.tokens.length : Int) then
    match tokenAt p.tokens (p.current_token + 1) with
    | some t => some (t, p)
    | none => none
  else
    match tokenAt p.tokens (p.current_token - 1) with
    | some prev =>
      some (⟨-2, [], 3, prev.line + 1, prev.offset + prev.len⟩, p)
    | none => none

/-- `parser_get_line` of part_001 lines 408-413: returns
`tokens.items[current_token].line`. -/
def parser_get_line (p : parser_t) : Option Int :=
  (tokenAt p.tokens p.current_token).map token_t.line

/-- Spec-modelled (claim C9 wording): the running line counter at a byte
offset — the number of newline bytes strictly before `off`, zero-based. -/
def newlinesBefore (buf : List Char) (off : Nat) : Nat := (buf.take off).count '\n'

/-- All bytes of `l` are configured whitespace separators. -/
def sepOnly (l : List Char) : Prop := ∀ c ∈ l, isSep c = true

/-- Spec-modelled (claim C6 wording): `interleaves buf texts` holds when
`buf` is the concatenation of the token byte lists `texts` in order with
runs of whitespace separators reinserted before, between and after them. -/
def interleaves : List Char → List (List Char) → Prop
  | b, [] => sepOnly b
  | b, t :: ts => ∃ ws rest, sepOnly ws ∧ b = ws ++ t ++ rest ∧ interleaves rest ts

/-- Count of non-separator bytes, used to refute an `interleaves` instance. -/
def nonSepCount (l : List Char) : Nat := (l.filter (fun c => !isSep c)).length

/-- Example word token used by witness instantiations. -/
def exTokenA : token_t := ⟨-1, 'a' :: [], 1, 0, 0⟩

/-- Second example word token used by witness instantiations. -/
def exTokenB : token_t := ⟨-1, 'b' :: [], 1, 0, 2⟩

/-- Example two-token stream with the cursor at 0. -/
def exStream2 : parser_t := ⟨0, 'a' :: ' ' :: 'b' :: [], [], exTokenA :: exTokenB :: [], 0⟩

/-- Example one-token stream whose cursor has reached the token count. -/
def exStreamEnd : parser_t := ⟨0, 'a' :: [], [], exTokenA :: [], 1⟩

theorem charAt_eq_getElem {buf : List Char} {i : Nat} (h : i < buf.length) :
    charAt buf i = buf[i] := by
  unfold charAt
  rw [List.getD_eq_getElem?_getD, List.getElem?_eq_getElem h]
  rfl

theorem charAt_not_mem {buf : List Char} {c : Char} (hc : c ∉ buf) (h0 : c ≠ NUL) (i : Nat) :
    charAt buf i ≠ c := by
  by_cases h : i < buf.length
  · rw [charAt_eq_getElem h]
    intro he
    exact hc (he ▸ List.getElem_mem h)
  · unfold charAt
    rw [List.getD_eq_getElem?_getD, List.getElem?_eq_none (by omega)]
    intro he
    exact h0 he.symm

theorem crSkip_no_cr {buf : List Char} (hr : '\r' ∉ buf) (i : Nat) : crSkip buf i = i := by
  unfold crSkip
  rw [if_neg]
  intro hand
  exact charAt_not_mem hr (by decide) i hand.1

theorem drop_eq_charAt_cons {buf : List Char} {i : Nat} (h : i < buf.length) :
    buf.drop i = charAt buf i :: buf.drop (i + 1) := by
  rw [charAt_eq_getElem h]
  exact (List.getElem_cons_drop buf i h).symm

theorem is_punc_nil (buf : List Char) (j : Nat) : parser_is_punctuation [] buf j = -1 := rfl

theorem skipSpacesGo_facts (buf : List Char) :
    ∀ f i, i ≤ buf.length →
      i ≤ skipSpacesGo buf i f ∧ skipSpacesGo buf i f ≤ buf.length ∧
      ∃ seg, sepOnly seg ∧ buf.drop i = seg ++ buf.drop (skipSpacesGo buf i f) := by
  intro f
  induction f with
  | zero =>
    intro i hi
    exact ⟨Nat.le_refl i, hi, [], fun c hc => absurd hc (List.not_mem_nil c),
      by simp [skipSpacesGo]⟩
  | succ f ih =>
    intro i hi
    simp only [skipSpacesGo]
    by_cases hcond : charAt buf i = ' ' ∧ i < buf.length
    · rw [if_pos hcond]
      obtain ⟨h1, h2, seg, hseg, hdrop⟩ := ih (i + 1) (by omega)
      refine ⟨by omega, h2, charAt buf i :: seg, ?_, ?_⟩
      · intro c hc
        rcases List.mem_cons.mp hc with h | h
        · rw [h, hcond.1]; rfl
        · exact hseg c h
      · rw [drop_eq_charAt_cons hcond.2, hdrop]
        rfl
    · rw [if_neg hcond]
      exact ⟨Nat.le_refl i, hi, [], fun c hc => absurd hc (List.not_mem_nil c), by simp⟩

theorem skipSpaces_facts (buf : List Char) (i : Nat) (hi : i ≤ buf.length) :
    i ≤ skipSpaces buf i ∧ skipSpaces buf i ≤ buf.length ∧
      ∃ seg, sepOnly seg ∧ buf.drop i = seg ++ buf.drop (skipSpaces buf i) :=
  skipSpacesGo_facts buf (buf.length + 1 - i) i hi

theorem wordLoopGo_empty (buf : List Char) (hr : '\r' ∉ buf) :
    ∀ f i e line, i ≤ buf.length → buf.length + 1 - i ≤ f →
      ∃ i3 line3, wordLoopGo [] buf i e line f = some (i3, e + (i3 - i), line3) ∧
        i ≤ i3 ∧ i3 ≤ buf.length ∧
        (∀ j, i ≤ j → j < i3 → isSep (charAt buf j) = false) ∧
        (i3 < buf.length → isSep (charAt buf i3) = true) := by
  intro f
  induction f with
  | zero => intro i e line hi hf; omega
  | succ f ih =>
    intro i e line hi hf
    simp only [wordLoopGo, crSkip_no_cr hr, is_punc_nil]
    rw [if_neg (by decide : ¬((-1 : Int) > -1))]
    by_cases hilt : i < buf.length
    · rw [if_pos hilt]
      by_cases hsep : isSep (charAt buf i)
      · rw [if_pos hsep]
        exact ⟨i, nlBump buf i line, by simp, Nat.le_refl i, hi,
          fun j h1 h2 => absurd (Nat.lt_of_le_of_lt h1 h2) (Nat.lt_irrefl i),
          fun _ => hsep⟩
      · rw [if_neg hsep]
        obtain ⟨i3, line3, heq, h1, h2, h3, h4⟩ :=
          ih (i + 1) (e + 1) (nlBump buf i line) (by omega) (by omega)
        refine ⟨i3, line3, ?_, by omega, h2, ?_, h4⟩
        · rw [heq]
          have : e + 1 + (i3 - (i + 1)) = e + (i3 - i) := by omega
          rw [this]
        · intro j hj1 hj2
          rcases Nat.eq_or_lt_of_le hj1 with h | h
          · rw [← h]
            exact Bool.not_eq_true _ ▸ (by simpa using hsep)
          · exact h3 j h hj2
    · rw [if_neg hilt]
      exact ⟨i, line, by simp, Nat.le_refl i, by omega,
        fun j h1 h2 => absurd (Nat.lt_of_le_of_lt h1 h2) (Nat.lt_irrefl i),
        fun h => absurd h hilt⟩

theorem interleaves_sep_append (pre : List Char) {l : List Char} {ts : List (List Char)}
    (hpre : sepOnly pre) (h : interleaves l ts) : interleaves (pre ++ l) ts := by
  cases ts with
  | nil =>
    show sepOnly (pre ++ l)
    intro c hc
    rcases List.mem_append.mp hc with h1 | h2
    · exact hpre c h1
    · exact h c h2
  | cons t ts =>
    obtain ⟨ws, rest, hws, heq, hrest⟩ := h
    refine ⟨pre ++ ws, rest, ?_, ?_, hrest⟩
    · intro c hc
      rcases List.mem_append.mp hc with h1 | h2
      · exact hpre c h1
      · exact hws c h2
    · rw [heq]
      simp [List.append_assoc]

theorem scanLoop_empty_round (buf : List Char) (hr : '\r' ∉ buf) :
    ∀ f i line, buf.length - i < f →
      ∃ toks, scanLoop 0 buf [] f i line = some toks ∧
        interleaves (buf.drop i) (toks.map token_t.token) ∧
        ∀ t ∈ toks, t.id = -1 := by
  intro f
  induction f with
  | zero => intro i line h; omega
  | succ f ih =>
    intro i line h
    by_cases hi : i < buf.length
    case neg =>
      refine ⟨[], ?_, ?_, by simp⟩
      · simp only [scanLoop]
        rw [if_neg hi]
      · rw [List.drop_of_length_le (by omega)]
        exact fun c hc => absurd hc (List.not_mem_nil c)
    case pos =>
      obtain ⟨hs1, hs2, seg, hseg, hdrop⟩ := skipSpaces_facts buf i (by omega)
      obtain ⟨i3, line3, hw, hw1, hw2, hw3, hw4⟩ :=
        wordLoopGo_empty buf hr (buf.length + 1 - skipSpaces buf i) (skipSpaces buf i)
          (skipSpaces buf i + 1) (nlBump buf (skipSpaces buf i) line) hs2 (Nat.le_refl _)
      have hlen : skipSpaces buf i + 1 + (i3 - skipSpaces buf i) - skipSpaces buf i - 1
          = i3 - skipSpaces buf i := by omega
      obtain ⟨rest, hre, hri, hrid⟩ := ih (i3 + 1) line3 (by omega)
      have hinter3 : interleaves (buf.drop i3) (rest.map token_t.token) := by
        by_cases h3 : i3 < buf.length
        · rw [drop_eq_charAt_cons h3]
          refine interleaves_sep_append (charAt buf i3 :: []) ?_ hri
          intro c hc
          rw [List.mem_singleton.mp hc]
          exact hw4 h3
        · rw [List.drop_of_length_le (by omega)]
          rw [List.drop_of_length_le (by omega)] at hri
          exact hri
      have hdropS : buf.drop (skipSpaces buf i) =
          strncpySlice buf (skipSpaces buf i) (i3 - skipSpaces buf i) ++ buf.drop i3 := by
        have hdd : buf.drop i3 = (buf.drop (skipSpaces buf i)).drop (i3 - skipSpaces buf i) := by
          rw [List.drop_drop]
          congr 1
          omega
        rw [hdd]
        exact (List.take_append_drop _ _).symm
      by_cases hz : i3 - skipSpaces buf i = 0
      case pos =>
        refine ⟨rest, ?_, ?_, hrid⟩
        · simp only [scanLoop, if_pos hi, crSkip_no_cr hr, is_punc_nil, P_ACCEPT_DOUBLEQUOTES,
            P_ACCEPT_SINGLEQUOTES, Nat.zero_and, ne_eq, eq_self_iff_true, not_true_eq_false,
            false_and, ite_false, ite_true]
          rw [show wordLoop [] buf (skipSpaces buf i) (skipSpaces buf i + 1)
              (nlBump buf (skipSpaces buf i) line) =
            wordLoopGo [] buf (skipSpaces buf i) (skipSpaces buf i + 1)
              (nlBump buf (skipSpaces buf i) line) (buf.length + 1 - skipSpaces buf i) from rfl, hw]
          simp only [pushTok, hlen]
          rw [if_pos hz]
          exact hre
        · have hse : skipSpaces buf i = i3 := by omega
          rw [hdrop, hse]
          exact interleaves_sep_append seg hseg hinter3
      case neg =>
        refine ⟨⟨-1, strncpySlice buf (skipSpaces buf i) (i3 - skipSpaces buf i),
            ((i3 - skipSpaces buf i : Nat) : Int), nlBump buf (skipSpaces buf i) line,
            (skipSpaces buf i : Int)⟩ :: rest, ?_, ?_, ?_⟩
        · simp only [scanLoop, if_pos hi, crSkip_no_cr hr, is_punc_nil, P_ACCEPT_DOUBLEQUOTES,
            P_ACCEPT_SINGLEQUOTES, Nat.zero_and, ne_eq, eq_self_iff_true, not_true_eq_false,
            false_and, ite_false, ite_true]
          rw [show wordLoop [] buf (skipSpaces buf i) (skipSpaces buf i + 1)
              (nlBump buf (skipSpaces buf i) line) =
            wordLoopGo [] buf (skipSpaces buf i) (skipSpaces buf i + 1)
              (nlBump buf (skipSpaces buf i) line) (buf.length + 1 - skipSpaces buf i) from rfl, hw]
          simp only [pushTok, hlen]
          rw [if_neg hz, hre]
          rfl
        · refine ⟨seg, buf.drop i3, hseg, ?_, hinter3⟩
          rw [hdrop, hdropS]
          simp [List.append_assoc]
        · intro t ht
          rcases List.mem_cons.mp ht with h | h
          · rw [h]
          · exact hrid t h

theorem nonSepCount_append (a b : List Char) :
    nonSepCount (a ++ b) = nonSepCount a + nonSepCount b := by
  simp [nonSepCount, List.filter_append]

theorem sepOnly_nonSepCount {l : List Char} (h : sepOnly l) : nonSepCount l = 0 := by
  unfold nonSepCount
  rw [List.length_eq_zero, List.filter_eq_nil_iff]
  intro a ha
  rw [h a ha]
  decide

/-- C1: the claim says that for a table holding both a literal and a
strict proper prefix of it, in either registration order, scanning a
buffer beginning with the longer literal emits exactly one token for the
longer literal.  Evaluating the embedded code at the failing input — the
table registering "<" (id 0) before "<<" (id 1) and the buffer `<<x` —
shows `parser_is_punctuation` returning index 0 (the one-byte entry, the
first registered full match) and the scan emitting TWO one-byte "<"
tokens, never the "<<" token. -/
theorem c1_first_registered_match_eval :
    parser_is_punctuation
        (punc_add (punc_add punc_init ('<' :: []) 0) ('<' :: '<' :: []) 1)
        ('<' :: '<' :: 'x' :: []) 0 = 0 ∧
    parser_init ('<' :: '<' :: 'x' :: [])
        (punc_add (punc_add punc_init ('<' :: []) 0) ('<' :: '<' :: []) 1) 0 =
      some { options := 0, buffer := '<' :: '<' :: 'x' :: [],
             punctuation := ⟨'<' :: [], 0, 1⟩ :: ⟨'<' :: '<' :: [], 1, 2⟩ :: [],
             tokens := ⟨0, '<' :: [], 1, 0, 0⟩ :: ⟨0, '<' :: [], 1, 0, 1⟩ ::
               ⟨-1, 'x' :: [], 1, 0, 2⟩ :: [],
             current_token := 0 } := by decide

/-- C2: the claim says every cursor operation is total on a constructed
stream — no token-sequence index access returns `none`.  Evaluating the
embedded code on the stream built from the buffer `ab` (one stored
token): at the reachable cursor 0, `parser_peek_token` reads
`tokens.items[1]`, one past the stored tokens, and at the reachable
cursor 1 (after one `parser_get_token`) `parser_get_line` reads
`tokens.items[1]` as well — both out-of-bounds reads, `none` in the
embedding. -/
theorem c2_peek_and_get_line_read_out_of_bounds :
    parser_init ('a' :: 'b' :: []) [] 0 =
      some { options := 0, buffer := 'a' :: 'b' :: [], punctuation := [],
             tokens := ⟨-1, 'a' :: 'b' :: [], 2, 0, 0⟩ :: [], current_token := 0 } ∧
    parser_peek_token
      { options := 0, buffer := 'a' :: 'b' :: [], punctuation := [],
        tokens := ⟨-1, 'a' :: 'b' :: [], 2, 0, 0⟩ :: [], current_token := 0 } = none ∧
    parser_get_token
      { options := 0, buffer := 'a' :: 'b' :: [], punctuation := [],
        tokens := ⟨-1, 'a' :: 'b' :: [], 2, 0, 0⟩ :: [], current_token := 0 } =
      some (⟨-1, 'a' :: 'b' :: [], 2, 0, 0⟩,
        { options := 0, buffer := 'a' :: 'b' :: [], punctuation := [],
          tokens := ⟨-1, 'a' :: 'b' :: [], 2, 0, 0⟩ :: [], current_token := 1 }) ∧
    parser_get_line
      { options := 0, buffer := 'a' :: 'b' :: [], punctuation := [],
        tokens := ⟨-1, 'a' :: 'b' :: [], 2, 0, 0⟩ :: [], current_token := 1 } = none := by decide

/-- C3: the claim says the first `get_token` on the stream of an empty
buffer returns the EndOfStream sentinel with id -2.  Evaluating the
embedded code: the empty buffer yields a stream with zero stored tokens,
and `parser_get_token` then builds the sentinel from
`tokens.items[current_token - 1]` = `items[-1]` — an out-of-bounds read
(`none` in the embedding) instead of a well-defined sentinel. -/
theorem c3_empty_buffer_get_token_reads_out_of_bounds :
    parser_init [] [] 0 =
      some { options := 0, buffer := [], punctuation := [], tokens := [],
             current_token := 0 } ∧
    parser_get_token
      { options := 0, buffer := [], punctuation := [], tokens := [],
        current_token := 0 } = none := by decide

/-- C4 counterexample: the claim quantifies over EVERY constructed
stream, but on the stream of the empty buffer the cursor (0) equals the
token count (0) from the start and `parser_get_token` performs the
`items[-1]` out-of-bounds read instead of returning a sentinel. -/
theorem c4_empty_stream_counterexample :
    ∃ p, parser_init [] [] 0 = some p ∧ p.current_token = (p.tokens.length : Int) ∧
      parser_get_token p = none :=
  ⟨{ options := 0, buffer := [], punctuation := [], tokens := [], current_token := 0 },
    by decide, by decide, by decide⟩

/-- C4 (amended): for every stream holding at least one token, once the
cursor equals the token count every `parser_get_token` call returns one
and the same EndOfStream token — id -2, length 3, line and offset derived
from the last stored token — and returns the state unchanged, so every
subsequent call repeats it identically. -/
theorem c4_get_token_idempotent_at_end_nonempty (p : parser_t)
    (h1 : p.current_token = (p.tokens.length : Int)) (h2 : 0 < p.tokens.length) :
    ∃ prev, tokenAt p.tokens (p.current_token - 1) = some prev ∧
      parser_get_token p = some (⟨-2, [], 3, prev.line + 1, prev.offset + prev.len⟩, p) := by
  have hlt : (p.current_token - 1).toNat < p.tokens.length := by omega
  have hat : tokenAt p.tokens (p.current_token - 1) =
      some (p.tokens.get ⟨(p.current_token - 1).toNat, hlt⟩) := by
    unfold tokenAt
    rw [if_pos (by omega), List.get?_eq_get hlt]
  refine ⟨_, hat, ?_⟩
  unfold parser_get_token
  rw [if_neg (by omega), hat]

/-- C4 witness: the amended theorem applied to the one-token stream whose
cursor has reached the count. -/
theorem c4_get_token_idempotent_at_end_nonempty_witness :
    ∃ prev, tokenAt exStreamEnd.tokens (exStreamEnd.current_token - 1) = some prev ∧
      parser_get_token exStreamEnd =
        some (⟨-2, [], 3, prev.line + 1, prev.offset + prev.len⟩, exStreamEnd) :=
  c4_get_token_idempotent_at_end_nonempty exStreamEnd (by decide) (by decide)

/-- C5: the claim says an escaped quote does not terminate a
double-quoted span and that `"a\"b" c` yields the two Word tokens
`a\"b` and `c`.  Evaluating the embedded code at that input (option
DOUBLE_QUOTES, empty table): the escape test looks two bytes behind the
candidate closing quote, so the escaped quote DOES terminate the span,
and the miscounted length yields THREE Word tokens with bytes `"a`,
`b"` and `c`. -/
theorem c5_escaped_quote_terminates_span :
    parser_init ('"' :: 'a' :: '\\' :: '"' :: 'b' :: '"' :: ' ' :: 'c' :: []) []
        P_ACCEPT_DOUBLEQUOTES =
      some { options := 2,
             buffer := '"' :: 'a' :: '\\' :: '"' :: 'b' :: '"' :: ' ' :: 'c' :: [],
             punctuation := [],
             tokens := ⟨-1, '"' :: 'a' :: [], 2, 0, 0⟩ :: ⟨-1, 'b' :: '"' :: [], 2, 0, 4⟩ ::
               ⟨-1, 'c' :: [], 1, 0, 7⟩ :: [],
             current_token := 0 } := by decide

/-- C6 counterexample: scanning the buffer `␣"ab"` with DOUBLE_QUOTES set
and an empty table stores the single token `"a`, and no reinsertion of
whitespace separators around that token can rebuild the buffer — the
bytes `b` and the closing quote are lost, so the claimed round trip
fails at this input. -/
theorem c6_quoted_span_loses_bytes_counterexample :
    parser_init (' ' :: '"' :: 'a' :: 'b' :: '"' :: []) [] P_ACCEPT_DOUBLEQUOTES =
      some { options := 2, buffer := ' ' :: '"' :: 'a' :: 'b' :: '"' :: [], punctuation := [],
             tokens := ⟨-1, '"' :: 'a' :: [], 2, 0, 1⟩ :: [], current_token := 0 } ∧
    (((⟨-1, '"' :: 'a' :: [], 2, 0, 1⟩ :: []).filter
        (fun t : token_t => t.id != -2)).map token_t.token = ('"' :: 'a' :: []) :: []) ∧
    ¬ interleaves (' ' :: '"' :: 'a' :: 'b' :: '"' :: []) (('"' :: 'a' :: []) :: []) := by
  refine ⟨by decide, by decide, ?_⟩
  rintro ⟨ws, rest, hws, heq, hrest⟩
  have hc : nonSepCount (' ' :: '"' :: 'a' :: 'b' :: '"' :: []) =
      nonSepCount ws + (nonSepCount ('"' :: 'a' :: []) + nonSepCount rest) := by
    rw [heq, nonSepCount_append, nonSepCount_append]
    omega
  rw [sepOnly_nonSepCount hws, sepOnly_nonSepCount hrest] at hc
  have h1 : nonSepCount (' ' :: '"' :: 'a' :: 'b' :: '"' :: []) = 4 := by decide
  have h2 : nonSepCount ('"' :: 'a' :: []) = 2 := by decide
  omega

/-- C6 (amended): for every carriage-return-free buffer scanned with an
empty punctuation table and no quote options, concatenating the bytes of
all non-EndOfStream tokens in order with the whitespace separators of
the buffer reinserted between them reproduces the buffer exactly. -/
theorem c6_round_trip_words_only (buf : List Char) (hr : '\r' ∉ buf) :
    ∃ p, parser_init buf [] 0 = some p ∧
      interleaves buf ((p.tokens.filter (fun t => t.id != -2)).map token_t.token) := by
  obtain ⟨toks, heq, hint, hid⟩ := scanLoop_empty_round buf hr (buf.length + 1) 0 0 (by omega)
  refine ⟨⟨0, buf, [], toks, 0⟩, ?_, ?_⟩
  · unfold parser_init
    rw [heq]
    rfl
  · have hf : toks.filter (fun t => t.id != -2) = toks := by
      rw [List.filter_eq_self]
      intro t ht
      rw [hid t ht]
      decide
    rw [hf, List.drop_zero] at *
    exact hint

/-- C6 witness: the amended round trip at the buffer `a b`. -/
theorem c6_round_trip_words_only_witness :
    ('\r' ∉ ('a' :: ' ' :: 'b' :: [])) ∧
    ∃ p, parser_init ('a' :: ' ' :: 'b' :: []) [] 0 = some p ∧
      interleaves ('a' :: ' ' :: 'b' :: [])
        ((p.tokens.filter (fun t => t.id != -2)).map token_t.token) :=
  ⟨by decide, c6_round_trip_words_only ('a' :: ' ' :: 'b' :: []) (by decide)⟩

/-- C7: whenever the position one past the cursor holds a stored token,
`parser_peek_token` returns exactly that token — one position AHEAD of
the cursor — and returns the parser state unchanged: no field of the
stream is written. -/
theorem c7_peek_one_ahead_pure (p : parser_t) (t : token_t)
    (h : tokenAt p.tokens (p.current_token + 1) = some t) :
    parser_peek_token p = some (t, p) := by
  have h' := h
  unfold tokenAt at h'
  by_cases h0 : 0 ≤ p.current_token + 1
  · rw [if_pos h0] at h'
    obtain ⟨hlt, -⟩ := List.get?_eq_some.mp h'
    have hguard : p.current_token < (p.tokens.length : Int) := by omega
    unfold parser_peek_token
    rw [if_pos hguard, h]
  · rw [if_neg h0] at h'
    cases h'

/-- C7 witness: peeking the two-token stream at cursor 0 returns the
second token and the unchanged state. -/
theorem c7_peek_one_ahead_pure_witness :
    tokenAt exStream2.tokens (exStream2.current_token + 1) = some exTokenB ∧
    parser_peek_token exStream2 = some (exTokenB, exStream2) :=
  ⟨by decide, c7_peek_one_ahead_pure exStream2 exTokenB (by decide)⟩

/-- C8: for every stream state with a non-negative cursor,
`parser_unget_token` never makes the cursor negative, leaves a cursor
that is already 0 at 0, decrements a positive cursor by one, and touches
no other field. -/
theorem c8_unget_clamped_at_zero (p : parser_t) (h : 0 ≤ p.current_token) :
    0 ≤ (parser_unget_token p).current_token ∧
    (p.current_token = 0 → (parser_unget_token p).current_token = 0) ∧
    (0 < p.current_token → (parser_unget_token p).current_token = p.current_token - 1) ∧
    (parser_unget_token p).tokens = p.tokens ∧
    (parser_unget_token p).buffer = p.buffer := by
  unfold parser_unget_token
  split
  next hpos =>
    exact ⟨show (0:Int) ≤ p.current_token - 1 by omega,
      fun h0 => absurd h0 (by omega), fun _ => rfl, rfl, rfl⟩
  next hneg =>
    exact ⟨h, fun h0 => h0, fun h0 => absurd h0 hneg, rfl, rfl⟩

/-- C8 witness: ungetting the two-token stream at cursor 0 keeps the
cursor at 0 and the stream intact. -/
theorem c8_unget_clamped_at_zero_witness :
    0 ≤ (parser_unget_token exStream2).current_token ∧
    (exStream2.current_token = 0 → (parser_unget_token exStream2).current_token = 0) ∧
    (0 < exStream2.current_token →
      (parser_unget_token exStream2).current_token = exStream2.current_token - 1) ∧
    (parser_unget_token exStream2).tokens = exStream2.tokens ∧
    (parser_unget_token exStream2).buffer = exStream2.buffer :=
  c8_unget_clamped_at_zero exStream2 (by decide)

/-- C9 counterexample: the claim says the scanner attaches the running
count of crossed newlines to the next token.  For the buffer `\na` one
newline precedes the token `a` (offset 1), yet the stored token carries
line 2 — the leading newline is counted once at the top of the scan loop
and a second time inside the word loop. -/
theorem c9_leading_newline_double_counted :
    parser_init ('\n' :: 'a' :: []) [] 0 =
      some { options := 0, buffer := '\n' :: 'a' :: [], punctuation := [],
             tokens := ⟨-1, 'a' :: [], 1, 2, 1⟩ :: [], current_token := 0 } ∧
    newlinesBefore ('\n' :: 'a' :: []) 1 = 1 ∧ ((2 : Int) ≠ ((1 : Nat) : Int)) := by decide

/-- C9 (amended): a newline crossed while scanning a word is counted
once and the counter at a token's start line is attached to it: for the
buffer `a\nb` the token for `b` carries line 1 (zero-based), matching
the single newline before it; only a newline sitting at a token start is
double-counted. -/
theorem c9_token_after_newline_line_one :
    parser_init ('a' :: '\n' :: 'b' :: []) [] 0 =
      some { options := 0, buffer := 'a' :: '\n' :: 'b' :: [], punctuation := [],
             tokens := ⟨-1, 'a' :: [], 1, 0, 0⟩ :: ⟨-1, 'b' :: [], 1, 1, 2⟩ :: [],
             current_token := 0 } ∧
    newlinesBefore ('a' :: '\n' :: 'b' :: []) 2 = 1 := by decide

/-- C10: at every non-negative cursor strictly below the token count,
`parser_get_token` returns the stored token and bumps only the cursor;
`parser_unget_token` then restores exactly the previous state, and the
next `parser_get_token` re-reads the same token. -/
theorem c10_get_unget_restores_cursor (p : parser_t) (h0 : 0 ≤ p.current_token)
    (h1 : p.current_token < (p.tokens.length : Int)) :
    ∃ t, parser_get_token p = some (t, { p with current_token := p.current_token + 1 }) ∧
      parser_unget_token { p with current_token := p.current_token + 1 } = p ∧
      parser_get_token (parser_unget_token { p with current_token := p.current_token + 1 }) =
        some (t, { p with current_token := p.current_token + 1 }) := by
  have hlt : p.current_token.toNat < p.tokens.length := by omega
  have hat : tokenAt p.tokens p.current_token = some (p.tokens.get ⟨p.current_token.toNat, hlt⟩) := by
    unfold tokenAt
    rw [if_pos h0, List.get?_eq_get hlt]
  have hget : parser_get_token p =
      some (p.tokens.get ⟨p.current_token.toNat, hlt⟩,
        { p with current_token := p.current_token + 1 }) := by
    unfold parser_get_token
    rw [if_pos h1, hat]
  have hunget : parser_unget_token { p with current_token := p.current_token + 1 } = p := by
    unfold parser_unget_token
    rw [if_pos (by simp; omega)]
    simp
  exact ⟨_, hget, hunget, by rw [hunget]; exact hget⟩

/-- C10 witness: get-then-unget on the two-token stream at cursor 0. -/
theorem c10_get_unget_restores_cursor_witness :
    ∃ t, parser_get_token exStream2 =
        some (t, { exStream2 with current_token := exStream2.current_token + 1 }) ∧
      parser_unget_token { exStream2 with current_token := exStream2.current_token + 1 } =
        exStream2 ∧
      parser_get_token
          (parser_unget_token { exStream2 with current_token := exStream2.current_token + 1 }) =
        some (t, { exStream2 with current_token := exStream2.current_token + 1 }) :=
  c10_get_unget_restores_cursor exStream2 (by decide) (by decide)
